import Mathlib

/-!
A verification development for the `python-helper` code analyzer / bug fixer.

The Python sources embedded here are `src/analyzer.py` (class `CodeAnalyzer`,
class `CodeIssue`) and `src/fixer.py` (class `BugFixer`).  Pure functions are
translated to Lean functions; the mutable instance state (`self.issues`,
`self.fixes_applied`) is made explicit by state passing; Python's `IndexError`
is modelled with `Except`.  Source text is represented by its list of lines:
the source functions convert `code.split('\n')` at entry and `'\n'.join(...)`
at exit, a bijection between texts and line lists, so every property below is
stated on the line list.
-/

/-- `CodeIssue` from `analyzer.py`: line, column, message, severity, code.
Line and column are Python ints, hence `Int`. -/
structure CodeIssue where
  line : Int
  column : Int
  message : String
  severity : String
  code : String
  deriving DecidableEq, Repr

/-- One entry of `BugFixer.fixes_applied`: the dict
`{'line': ..., 'type': 'docstring', 'message': ...}`. -/
structure FixRec where
  line : Int
  type : String
  message : String
  deriving DecidableEq, Repr

/-- Decidable equality of `Except` results, for evaluating the fixer on
concrete inputs. -/
instance {ε α : Type} [DecidableEq ε] [DecidableEq α] : DecidableEq (Except ε α) := fun x y =>
  match x, y with
  | .error a, .error b =>
    if h : a = b then .isTrue (h ▸ rfl) else .isFalse (fun hh => h (Except.error.inj hh))
  | .ok a, .ok b =>
    if h : a = b then .isTrue (h ▸ rfl) else .isFalse (fun hh => h (Except.ok.inj hh))
  | .error _, .ok _ => .isFalse (fun hh => Except.noConfusion hh)
  | .ok _, .error _ => .isFalse (fun hh => Except.noConfusion hh)

/-! ### Python string and list primitives -/

/-- Whitespace as stripped by `str.lstrip()` and matched by the regex class
`\s` (ASCII range; the sources only ever meet ASCII whitespace). -/
def isPySpace (c : Char) : Bool :=
  c = ' ' || c = '\t' || c = '\n' || c = '\x0b' || c = '\x0c' || c = '\r'

/-- A character matched by the regex class `\w` (letter, digit or underscore). -/
def isWordChar (c : Char) : Bool :=
  c.isAlphanum || c = '_'

/-- `len(line) - len(line.lstrip())`: the number of leading whitespace
characters of a line. -/
def leadingWsCount (s : String) : Nat :=
  (s.toList.takeWhile isPySpace).length

/-- Match a literal keyword at the head of the input, returning the rest. -/
def matchKeyword : List Char → List Char → Option (List Char)
  | [], cs => some cs
  | _ :: _, [] => none
  | k :: ks, c :: cs => if c = k then matchKeyword ks cs else none

/-- Match `\s+(\w+)` at the head of the input, returning the captured word.
`\s` and `\w` are disjoint, so greedy matching needs no backtracking. -/
def matchSpacesWord (cs : List Char) : Option String :=
  match cs with
  | [] => none
  | c :: rest =>
    if isPySpace c then
      let afterSpaces := rest.dropWhile isPySpace
      let word := afterSpaces.takeWhile isWordChar
      if word.isEmpty then none else some (String.mk word)
    else none

/-- Try the regex `(def|class)\s+(\w+)` anchored at the current position:
the alternation tries `def` first, then `class`. -/
def tryDefClassAt (cs : List Char) : Option (String × String) :=
  (match matchKeyword ['d', 'e', 'f'] cs with
   | some after => (matchSpacesWord after).map (fun w => ("def", w))
   | none => none) <|>
  (match matchKeyword ['c', 'l', 'a', 's', 's'] cs with
   | some after => (matchSpacesWord after).map (fun w => ("class", w))
   | none => none)

/-- `re.search(r'(def|class)\s+(\w+)', line)`: scan left to right for the
first position where the pattern matches, returning the two groups. -/
def searchDefClass : List Char → Option (String × String)
  | [] => none
  | c :: rest => tryDefClassAt (c :: rest) <|> searchDefClass rest

/-- Insert an element at a position, clamping positions past the end
(Python `list.insert` semantics for nonnegative indices). -/
def insertAt (a : α) : Nat → List α → List α
  | _, [] => [a]
  | 0, l => a :: l
  | n + 1, x :: l => x :: insertAt a n l

/-- Python list indexing `l[i]`: nonnegative indices from the front,
negative indices wrap from the back; `none` is an `IndexError`. -/
def pyGet (l : List α) (i : Int) : Option α :=
  if 0 ≤ i then l.get? i.toNat
  else if -(l.length : Int) ≤ i then l.get? ((l.length : Int) + i).toNat
  else none

/-- Python `l.insert(i, a)`: negative positions wrap from the back and clamp
at the front; positions past the end append. -/
def pyInsert (l : List α) (i : Int) (a : α) : List α :=
  if 0 ≤ i then insertAt a i.toNat l
  else insertAt a (l.length - min (-i).toNat l.length) l

/-! ### `BugFixer._add_docstring` and `BugFixer.fix_code` -/

/-- The docstring line synthesized by `_add_docstring` for a definition line
whose leading indentation is `indent`: `inner_indent = indent + 4` spaces,
then a one-line `"""..."""` naming the object. -/
def mkDocstring (indent : Nat) (objType objName : String) : String :=
  let innerIndent := indent + 4
  if objType = "def" then
    String.mk (List.replicate innerIndent ' ') ++ "\"\"\"" ++ objName ++ " 函数的文档字符串。\"\"\""
  else
    String.mk (List.replicate innerIndent ' ') ++ "\"\"\"" ++ objName ++ " 类的文档字符串。\"\"\""

/-- `BugFixer._add_docstring(lines, issue)`.  Returns the updated lines and
the updated `fixes_applied`; `Except.error` is an `IndexError` raised by
`lines[line_idx]` (only reachable for `issue.line < 1 - len(lines)`). -/
def addDocstring (lines : List String) (fixes : List FixRec) (issue : CodeIssue) :
    Except Unit (List String × List FixRec) :=
  let lineIdx : Int := issue.line - 1
  if (lines.length : Int) ≤ lineIdx then
    .ok (lines, fixes)
  else
    match pyGet lines lineIdx with
    | none => .error ()
    | some defLine =>
      let indent := leadingWsCount defLine
      match searchDefClass defLine.toList with
      | none => .ok (lines, fixes)
      | some (objType, objName) =>
        let docstring := mkDocstring indent objType objName
        let lines := pyInsert lines (lineIdx + 1) docstring
        let fixes := fixes ++ [⟨issue.line, "docstring", "为 " ++ objName ++ " 添加了文档字符串"⟩]
        .ok (lines, fixes)

/-- Stable insertion preserving descending order of `line`: skip past
entries with a strictly larger line, insert before the first entry whose
line is `≤` ours. -/
def insertDescStable (x : CodeIssue) : List CodeIssue → List CodeIssue
  | [] => [x]
  | y :: l => if x.line < y.line then y :: insertDescStable x l else x :: y :: l

/-- `sorted(issues, key=lambda x: x.line, reverse=True)`: a stable sort into
descending line order (equal lines keep their original relative order). -/
def sortDescStable : List CodeIssue → List CodeIssue
  | [] => []
  | x :: l => insertDescStable x (sortDescStable l)

/-- The loop body of `fix_code`: `W0002` issues get a docstring; codes
starting with `I000` hit an explicit `pass`; anything else is ignored. -/
def applyIssuesLoop : List String → List FixRec → List CodeIssue →
    Except Unit (List String × List FixRec)
  | lines, fixes, [] => .ok (lines, fixes)
  | lines, fixes, issue :: rest =>
    if issue.code = "W0002" then
      match addDocstring lines fixes issue with
      | .error e => .error e
      | .ok (lines', fixes') => applyIssuesLoop lines' fixes' rest
    else
      applyIssuesLoop lines fixes rest

/-- `BugFixer.fix_code(code, issues)` on the line list of `code`:
reset `fixes_applied` to `[]`, sort the issues by line descending
(from back to front, so line numbers do not shift), then run the loop. -/
def fix_code (lines : List String) (issues : List CodeIssue) :
    Except Unit (List String × List FixRec) :=
  applyIssuesLoop lines [] (sortDescStable issues)

/-! ### The Python syntax tree

The parser (`ast.parse`) is an external collaborator; the analyzer consumes
its output.  `Ast` covers the node kinds the analyzer inspects; any other
node kind of a concrete program is represented by a constructor that merely
carries its children.  The node lists (`AstList`), parameter lists
(`ArgList`) and optional subtrees (`OptAst`) are members of the mutual
family so that all recursions below are structural. -/

mutual
/-- A Python AST node.  `lineno`/`colOffset` are carried where the analyzer
reads them.  A `functionDef`'s parameters live in its `arguments` child
node (`argumentsNode`), each parameter being an `arg` node (`argNode`)
with a name and an optional annotation. -/
inductive Ast where
  | module (body : AstList)
  | functionDef (name : String) (args : ArgList) (body : AstList)
      (returns : OptAst) (lineno : Int) (colOffset : Int)
  | classDef (name : String) (body : AstList) (lineno : Int) (colOffset : Int)
  | ifStmt (test : Ast) (body : AstList) (orelse : AstList)
  | whileStmt (test : Ast) (body : AstList) (orelse : AstList)
  | forStmt (target : Ast) (iter : Ast) (body : AstList) (orelse : AstList)
  | tryStmt (body : AstList) (handlers : AstList) (orelse : AstList) (finalbody : AstList)
  | exceptHandler (body : AstList)
  | boolOp (values : AstList)
  | returnStmt (value : OptAst)
  | exprStmt (value : Ast)
  | constantStr (s : String)
  | constantOther
  | binOp (left : Ast) (right : Ast)
  | name (id : String)
  | passStmt
  | argumentsNode (args : ArgList)
  | argNode (argName : String) ( annotation : OptAst)
/-- An optional subtree (an AST field that may be `None`). -/
inductive OptAst where
  | none
  | some (t : Ast)
/-- A list of AST nodes (a `body`, `orelse`, `values`, ... field). -/
inductive AstList where
  | nil
  | cons (hd : Ast) (tl : AstList)
/-- A list of `arg` entries: parameter name and optional annotation. -/
inductive ArgList where
  | nil
  | cons (argName : String) ( annotation : OptAst) (tl : ArgList)
end

/-- The number of entries of an `AstList` (`len(child.values)` etc.). -/
def AstList.length : AstList → Nat
  | .nil => 0
  | .cons _ tl => 1 + tl.length

/-- The parameter list as `(name, annotated?)` pairs, for stating rules. -/
def ArgList.toPairs : ArgList → List (String × Bool)
  | .nil => []
  | .cons nm ann tl =>
    (nm, match ann with | .none => false | .some _ => true) :: tl.toPairs

mutual
/-- All nodes of the subtree rooted at a node, the root first, following
`ast.iter_child_nodes` at each step.  `ast.walk` yields the same nodes
breadth-first; the analyzer only aggregates per-node contributions and
every property proved in this file is insensitive to enumeration order,
so the embedding enumerates the node multiset in preorder. -/
def walkNodes : Ast → List Ast
  | .module body => .module body :: walkL body
  | .functionDef nm args body ret ln col =>
    .functionDef nm args body ret ln col ::
      (.argumentsNode args :: walkArgs args) ++ walkL body ++ walkOpt ret
  | .classDef nm body ln col => .classDef nm body ln col :: walkL body
  | .ifStmt t b e => .ifStmt t b e :: walkNodes t ++ walkL b ++ walkL e
  | .whileStmt t b e => .whileStmt t b e :: walkNodes t ++ walkL b ++ walkL e
  | .forStmt tg it b e => .forStmt tg it b e :: walkNodes tg ++ walkNodes it ++ walkL b ++ walkL e
  | .tryStmt b h e f => .tryStmt b h e f :: walkL b ++ walkL h ++ walkL e ++ walkL f
  | .exceptHandler b => .exceptHandler b :: walkL b
  | .boolOp vs => .boolOp vs :: walkL vs
  | .returnStmt v => .returnStmt v :: walkOpt v
  | .exprStmt v => .exprStmt v :: walkNodes v
  | .constantStr s => [.constantStr s]
  | .constantOther => [.constantOther]
  | .binOp l r => .binOp l r :: walkNodes l ++ walkNodes r
  | .name id => [.name id]
  | .passStmt => [.passStmt]
  | .argumentsNode args => .argumentsNode args :: walkArgs args
  | .argNode nm ann => .argNode nm ann :: walkOpt ann
/-- Walk every node of a node list. -/
def walkL : AstList → List Ast
  | .nil => []
  | .cons hd tl => walkNodes hd ++ walkL tl
/-- Walk an optional subtree. -/
def walkOpt : OptAst → List Ast
  | .none => []
  | .some t => walkNodes t
/-- Walk a parameter list: each `arg` node, then its annotation subtree. -/
def walkArgs : ArgList → List Ast
  | .nil => []
  | .cons nm ann tl => (.argNode nm ann :: walkOpt ann) ++ walkArgs tl
end

/-! ### `CodeAnalyzer` -/

/-- The per-walk-step increment of `_calculate_complexity`: `+1` for a
conditional, loop or exception handler, `+ (len(values) - 1)` for a
short-circuit boolean expression (Python int arithmetic, hence `Int`). -/
def complexityStep : Ast → Int
  | .ifStmt _ _ _ => 1
  | .whileStmt _ _ _ => 1
  | .forStmt _ _ _ _ => 1
  | .exceptHandler _ => 1
  | .boolOp values => (values.length : Int) - 1
  | _ => 0

/-- `CodeAnalyzer._calculate_complexity(node)`: start at 1 and accumulate
`complexityStep` over every node of the subtree (`ast.walk(node)` includes
`node` itself). -/
def calculate_complexity (node : Ast) : Int :=
  (walkNodes node).foldl (fun acc child => acc + complexityStep child) 1

/-- `ast.get_docstring(node)` for a function or class node: the docstring
is the leading string-literal expression statement of the body.  (The
source cleans the returned text; only its presence/emptiness matters to
the analyzer, so the cleaning is not modelled.) -/
def getDocstring : Ast → Option String
  | .functionDef _ _ (.cons (.exprStmt (.constantStr s)) _) _ _ _ => some s
  | .classDef _ (.cons (.exprStmt (.constantStr s)) _) _ _ => some s
  | _ => none

/-- `CodeAnalyzer._check_function_complexity(node)`: the issues it appends. -/
def checkFunctionComplexity (node : Ast) : List CodeIssue :=
  match node with
  | .functionDef nm _ _ _ lineno col =>
    let complexity := calculate_complexity node
    if 10 < complexity then
      [⟨lineno, col, "函数 '" ++ nm ++ "' 复杂度过高 (" ++ toString complexity ++ ")",
        "warning", "W0001"⟩]
    else []
  | _ => []

/-- `CodeAnalyzer._check_missing_docstrings(node)`: the issues it appends.
`if not ast.get_docstring(node)` also fires on an empty docstring. -/
def checkMissingDocstrings (node : Ast) : List CodeIssue :=
  match node with
  | .functionDef nm _ _ _ lineno col =>
    if (getDocstring node).getD "" = "" then
      [⟨lineno, col, "FunctionDef '" ++ nm ++ "' 缺少文档字符串", "warning", "W0002"⟩]
    else []
  | .classDef nm _ lineno col =>
    if (getDocstring node).getD "" = "" then
      [⟨lineno, col, "ClassDef '" ++ nm ++ "' 缺少文档字符串", "warning", "W0002"⟩]
    else []
  | _ => []

/-- The parameter loop of `_check_missing_type_hints`: flag each parameter
with no annotation whose literal name is not `self`
(`if arg.annotation is None and arg.arg != 'self'`), at the function's
own line/column. -/
def typeHintArgIssues (lineno col : Int) : ArgList → List CodeIssue
  | .nil => []
  | .cons nm ann tl =>
    (match ann with
     | .none =>
       if nm ≠ "self" then
         [(⟨lineno, col, "参数 '" ++ nm ++ "' 缺少类型提示", "info", "I0001"⟩ : CodeIssue)]
       else []
     | .some _ => []) ++ typeHintArgIssues lineno col tl

/-- `CodeAnalyzer._check_missing_type_hints(node)`: the issues it appends.
After the parameters, an unannotated return type is flagged once. -/
def checkMissingTypeHints (node : Ast) : List CodeIssue :=
  match node with
  | .functionDef nm args _ returns lineno col =>
    typeHintArgIssues lineno col args ++
    (match returns with
     | .none =>
       [(⟨lineno, col, "函数 '" ++ nm ++ "' 缺少返回值类型提示", "info", "I0002"⟩ : CodeIssue)]
     | .some _ => [])
  | _ => []

/-- `CodeAnalyzer._check_ast(tree)`: for every node of the walk, run the
three checks in their call order, appending their issues. -/
def collectIssues (tree : Ast) : List CodeIssue :=
  (walkNodes tree).foldl
    (fun acc node =>
      acc ++ checkFunctionComplexity node ++ checkMissingDocstrings node ++
        checkMissingTypeHints node)
    []

/-- The structured failure reported by `ast.parse` (`SyntaxError`): optional
line and offset, and a message. -/
structure SyntaxErrInfo where
  lineno : Option Int
  offset : Option Int
  msg : String

/-- The mutable state of a `CodeAnalyzer` instance: `self.issues`. -/
structure CodeAnalyzer where
  issues : List CodeIssue

/-- `CodeAnalyzer.analyze_code(code)`.  Parsing is the external collaborator,
so the embedding consumes its result: a tree, or a `SyntaxError`.  The
instance's issue buffer is reset, then either the single `E0001` error issue
is appended (`line=e.lineno or 0`, `column=e.offset or 0`; for an `int`
value `v`, `v or 0 = v`) or the tree walk fills the buffer; the buffer is
returned.  No exception escapes: the `SyntaxError` is caught, and the walk
itself is total. -/
def analyze_code (self : CodeAnalyzer) (parsed : Except SyntaxErrInfo Ast) :
    CodeAnalyzer × List CodeIssue :=
  let self := { self with issues := [] }
  match parsed with
  | .error e =>
    let issue : CodeIssue :=
      ⟨e.lineno.getD 0, e.offset.getD 0, "语法错误: " ++ e.msg, "error", "E0001"⟩
    let self := { self with issues := self.issues ++ [issue] }
    (self, self.issues)
  | .ok tree =>
    let self := { self with issues := self.issues ++ collectIssues tree }
    (self, self.issues)

/-- The dict returned by `CodeAnalyzer.get_statistics`. -/
structure Stats where
  total : Nat
  errors : Nat
  warnings : Nat
  info : Nat
  deriving DecidableEq, Repr

/-- `CodeAnalyzer.get_statistics()`: `total` is the buffer length; the three
buckets are tallied by matching each issue's severity string. -/
def get_statistics (self : CodeAnalyzer) : Stats :=
  self.issues.foldl
    (fun s i =>
      if i.severity = "error" then { s with errors := s.errors + 1 }
      else if i.severity = "warning" then { s with warnings := s.warnings + 1 }
      else if i.severity = "info" then { s with info := s.info + 1 }
      else s)
    ⟨self.issues.length, 0, 0, 0⟩

/-! ### Theorems -/

/-- The parse of the input text `"def f(x,y):\n    return x+y\n"`: one
function `f` at line 1 column 0, two unannotated parameters `x` and `y`,
no return annotation, and a body of a single `return x+y`. -/
def defFxyTree : Ast :=
  .module (.cons
    (.functionDef "f" (.cons "x" .none (.cons "y" .none .nil))
      (.cons (.returnStmt (.some (.binOp (.name "x") (.name "y")))) .nil)
      .none 1 0)
    .nil)

/-- C3: for every failing parse, `analyze_code` returns exactly one Issue,
with severity `error`, the syntax-failure code `E0001`, and line/column
taken from the parser's failure position, defaulting to 0 when absent; no
other Issue is present and no exception escapes (the embedding is total). -/
theorem analyze_parse_failure (st : CodeAnalyzer) (e : SyntaxErrInfo) :
    (analyze_code st (.error e)).2 =
      [⟨e.lineno.getD 0, e.offset.getD 0, "语法错误: " ++ e.msg, "error", "E0001"⟩] :=
  rfl

/-- C9: every `analyze_code` call owns a fresh issue buffer: its returned
collection does not depend on the instance state left by earlier calls —
it equals the collection computed from that call's input on a pristine
instance — and in particular a second call after any first call returns
exactly what it would have returned on the original instance. -/
theorem analyze_fresh_buffer :
    (∀ (st₁ st₂ : CodeAnalyzer) (p : Except SyntaxErrInfo Ast),
      (analyze_code st₁ p).2 = (analyze_code st₂ p).2) ∧
    (∀ (st : CodeAnalyzer) (p₁ p₂ : Except SyntaxErrInfo Ast),
      (analyze_code (analyze_code st p₁).1 p₂).2 = (analyze_code st p₂).2) := by
  refine ⟨fun st₁ st₂ p => ?_, fun st p₁ p₂ => ?_⟩
  · cases p <;> rfl
  · cases p₁ <;> cases p₂ <;> rfl

/-- C5: on the parse of `"def f(x,y):\n    return x+y\n"` the analyzer
returns exactly 4 Issues: one missing-parameter-annotation Issue for `x`,
one for `y`, one missing-return-annotation Issue, one missing-docstring
Issue, and zero error-severity Issues. -/
theorem analyze_concrete_def_fxy :
    ((analyze_code ⟨[]⟩ (.ok defFxyTree)).2).length = 4 ∧
    ((analyze_code ⟨[]⟩ (.ok defFxyTree)).2).countP
      (fun i => i.code = "I0001" && i.message = "参数 'x' 缺少类型提示") = 1 ∧
    ((analyze_code ⟨[]⟩ (.ok defFxyTree)).2).countP
      (fun i => i.code = "I0001" && i.message = "参数 'y' 缺少类型提示") = 1 ∧
    ((analyze_code ⟨[]⟩ (.ok defFxyTree)).2).countP (fun i => i.code = "I0002") = 1 ∧
    ((analyze_code ⟨[]⟩ (.ok defFxyTree)).2).countP (fun i => i.code = "W0002") = 1 ∧
    ((analyze_code ⟨[]⟩ (.ok defFxyTree)).2).countP (fun i => i.severity = "error") = 0 := by
  decide

/-- A conditional, loop, or exception-handler node (the kinds that add 1
to the complexity score). -/
def isCondNode : Ast → Bool
  | .ifStmt _ _ _ | .whileStmt _ _ _ | .forStmt _ _ _ _ | .exceptHandler _ => true
  | _ => false

/-- The `k - 1` contribution of a short-circuit boolean expression with `k`
operands; 0 for every other node. -/
def boolOpExtra : Ast → Int
  | .boolOp values => (values.length : Int) - 1
  | _ => 0

/-- An `AstList` of `k` plain name operands, for stating the boolean-operand
monotonicity property. -/
def nameOperands : Nat → AstList
  | 0 => .nil
  | k + 1 => .cons (.name "x") (nameOperands k)

/-- Concatenation of node lists. -/
def AstList.append : AstList → AstList → AstList
  | .nil, l => l
  | .cons hd tl, l => .cons hd (tl.append l)

lemma complexityStep_split (c : Ast) :
    complexityStep c = (if isCondNode c then 1 else 0) + boolOpExtra c := by
  cases c <;> simp [complexityStep, isCondNode, boolOpExtra]

lemma foldl_complexityStep (l : List Ast) : ∀ n : Int,
    l.foldl (fun acc c => acc + complexityStep c) n
      = n + (l.countP isCondNode : Int) + (l.map boolOpExtra).sum := by
  induction l with
  | nil => intro n; simp
  | cons c l ih =>
    intro n
    rw [List.foldl_cons, ih, List.countP_cons, List.map_cons, List.sum_cons,
      complexityStep_split]
    by_cases h : isCondNode c <;> simp [h] <;> ring

lemma calculate_complexity_eq (node : Ast) :
    calculate_complexity node
      = 1 + ((walkNodes node).countP isCondNode : Int)
          + ((walkNodes node).map boolOpExtra).sum := by
  rw [calculate_complexity, foldl_complexityStep]

lemma walkL_append : ∀ (a b : AstList), walkL (a.append b) = walkL a ++ walkL b
  | .nil, b => by simp [AstList.append, walkL]
  | .cons hd tl, b => by simp [AstList.append, walkL, walkL_append tl b]

lemma walkL_nameOperands_counts (k : Nat) :
    (walkL (nameOperands k)).countP isCondNode = 0 ∧
    ((walkL (nameOperands k)).map boolOpExtra).sum = 0 ∧
    (nameOperands k).length = k := by
  induction k with
  | zero => simp [nameOperands, walkL, AstList.length]
  | succ k ih =>
    obtain ⟨h₁, h₂, h₃⟩ := ih
    refine ⟨?_, ?_, ?_⟩ <;>
      simp [nameOperands, walkL, walkNodes, List.countP_cons, AstList.length,
        isCondNode, boolOpExtra, h₁, h₂, h₃, Nat.add_comm]

/-- C2: `_calculate_complexity` equals 1, plus the number of conditional,
loop, and exception-handler nodes in the subtree, plus the sum over every
short-circuit boolean expression of (operand count − 1).  Consequently:
prepending one bare conditional to a function body raises the score by
exactly 1; prepending a boolean expression with `k` operands raises it by
exactly `k − 1`; and nesting a statement list under a conditional instead
of sequencing it after an empty conditional leaves the score unchanged
(nesting depth is irrelevant). -/
theorem complexity_score_formula :
    (∀ node : Ast,
      calculate_complexity node
        = 1 + ((walkNodes node).countP isCondNode : Int)
            + ((walkNodes node).map boolOpExtra).sum) ∧
    (∀ (nm : String) (args : ArgList) (body : AstList) (ret : OptAst) (ln col : Int),
      calculate_complexity
          (.functionDef nm args
            (.cons (.ifStmt (.name "c") (.cons .passStmt .nil) .nil) body) ret ln col)
        = calculate_complexity (.functionDef nm args body ret ln col) + 1) ∧
    (∀ (nm : String) (args : ArgList) (body : AstList) (ret : OptAst) (ln col : Int) (k : Nat),
      calculate_complexity
          (.functionDef nm args
            (.cons (.exprStmt (.boolOp (nameOperands k))) body) ret ln col)
        = calculate_complexity (.functionDef nm args body ret ln col) + ((k : Int) - 1)) ∧
    (∀ (nm : String) (args : ArgList) (inner rest : AstList) (ret : OptAst)
        (ln col : Int) (tst : Ast),
      calculate_complexity
          (.functionDef nm args (.cons (.ifStmt tst inner .nil) rest) ret ln col)
        = calculate_complexity
            (.functionDef nm args (.cons (.ifStmt tst .nil .nil) (inner.append rest))
              ret ln col)) := by
  refine ⟨calculate_complexity_eq, ?_, ?_, ?_⟩
  · intro nm args body ret ln col
    rw [calculate_complexity_eq, calculate_complexity_eq]
    simp [walkNodes, walkL, walkOpt, List.countP_cons, List.countP_append,
      List.map_append, List.sum_append, isCondNode, boolOpExtra]
    ring
  · intro nm args body ret ln col k
    obtain ⟨h₁, h₂, h₃⟩ := walkL_nameOperands_counts k
    rw [calculate_complexity_eq, calculate_complexity_eq]
    simp [walkNodes, walkL, walkOpt, List.countP_cons, List.countP_append,
      List.map_append, List.sum_append, isCondNode, boolOpExtra, h₁, h₂, h₃]
    ring
  · intro nm args inner rest ret ln col tst
    rw [calculate_complexity_eq, calculate_complexity_eq]
    simp [walkNodes, walkL, walkOpt, walkL_append, List.countP_cons, List.countP_append,
      List.map_append, List.sum_append, isCondNode, boolOpExtra]

/-- C4 counterexample: the missing-parameter-annotation rule decides the
exclusion by the literal name `self`, not by structural position.  A free
(module-level) function whose unannotated parameter is named `self` is NOT
flagged, although the claim requires it to be; and a method whose first
parameter is named `this` IS flagged, although the claim requires a
method's first parameter to be excluded whatever its name. -/
theorem typeHint_structural_exclusion_refuted :
    ((analyze_code ⟨[]⟩ (.ok (.module (.cons
        (.functionDef "g" (.cons "self" .none .nil) (.cons .passStmt .nil) .none 1 0)
        .nil)))).2).countP (fun i => i.code = "I0001") = 0 ∧
    ((analyze_code ⟨[]⟩ (.ok (.module (.cons
        (.classDef "C" (.cons
          (.functionDef "m" (.cons "this" .none .nil) (.cons .passStmt .nil) .none 2 4)
          .nil) 1 0)
        .nil)))).2).countP (fun i => i.code = "I0001") = 1 := by
  decide

lemma typeHintArgIssues_count : ∀ (ln col : Int) (args : ArgList),
    (typeHintArgIssues ln col args).countP (fun i => i.code = "I0001")
      = (args.toPairs.filter (fun a => !a.2 && a.1 != "self")).length
  | _, _, .nil => by simp [typeHintArgIssues, ArgList.toPairs]
  | ln, col, .cons nm ann tl => by
    cases ann with
    | none =>
      by_cases h : nm = "self" <;>
        simp [typeHintArgIssues, ArgList.toPairs, List.countP_append, h,
          typeHintArgIssues_count ln col tl]
    | some t =>
      simp [typeHintArgIssues, ArgList.toPairs, List.countP_append,
        typeHintArgIssues_count ln col tl]

lemma typeHintArgIssues_fields : ∀ (ln col : Int) (args : ArgList),
    ∀ i ∈ typeHintArgIssues ln col args,
      i.severity = "info" ∧ i.code = "I0001" ∧ i.line = ln ∧ i.column = col
  | _, _, .nil => by simp [typeHintArgIssues]
  | ln, col, .cons nm ann tl => by
    intro i hi
    cases ann with
    | none =>
      by_cases h : nm = "self"
      · exact typeHintArgIssues_fields ln col tl i (by simpa [typeHintArgIssues, h] using hi)
      · rcases (by simpa [typeHintArgIssues, h] using hi :
          i = _ ∨ i ∈ typeHintArgIssues ln col tl) with h' | h'
        · subst h'; exact ⟨rfl, rfl, rfl, rfl⟩
        · exact typeHintArgIssues_fields ln col tl i h'
    | some t =>
      exact typeHintArgIssues_fields ln col tl i (by simpa [typeHintArgIssues] using hi)

/-- C4 amended: for every function node, the rule flags each declared
parameter that has no annotation and whose literal name is not `self` —
one info Issue per such parameter, at the function's position — in every
function-like node alike (free functions included); the exclusion is by
literal name, never by structural position, so `cls` receivers and
differently named first parameters of methods are flagged. -/
theorem typeHint_flags_by_literal_name (nm : String) (args : ArgList) (body : AstList)
    (ret : OptAst) (ln col : Int) :
    (checkMissingTypeHints (.functionDef nm args body ret ln col)).countP
        (fun i => i.code = "I0001")
      = (args.toPairs.filter (fun a => !a.2 && a.1 != "self")).length ∧
    ∀ i ∈ checkMissingTypeHints (.functionDef nm args body ret ln col),
      i.code = "I0001" → i.severity = "info" ∧ i.line = ln ∧ i.column = col := by
  constructor
  · cases ret <;>
      simp [checkMissingTypeHints, List.countP_append, typeHintArgIssues_count]
  · intro i hi hcode
    cases ret with
    | none =>
      rcases (by simpa [checkMissingTypeHints] using hi :
          i ∈ typeHintArgIssues ln col args ∨ i = _) with h' | h'
      · obtain ⟨h₁, _, h₂, h₃⟩ := typeHintArgIssues_fields ln col args i h'
        exact ⟨h₁, h₂, h₃⟩
      · subst h'; exact ⟨rfl, rfl, rfl⟩
    | some t =>
      obtain ⟨h₁, _, h₂, h₃⟩ := typeHintArgIssues_fields ln col args i
        (by simpa [checkMissingTypeHints] using hi)
      exact ⟨h₁, h₂, h₃⟩

/-- Witness for `typeHint_flags_by_literal_name`: a function with one
unannotated parameter `a` yields one `I0001` Issue, whose severity and
position are as stated. -/
theorem typeHint_flags_by_literal_name_witness :
    (checkMissingTypeHints (.functionDef "f" (.cons "a" .none .nil) .nil .none 1 0)).countP
        (fun i => i.code = "I0001") = 1 ∧
    ((⟨1, 0, "参数 'a' 缺少类型提示", "info", "I0001"⟩ : CodeIssue).severity = "info" ∧
     (⟨1, 0, "参数 'a' 缺少类型提示", "info", "I0001"⟩ : CodeIssue).line = 1 ∧
     (⟨1, 0, "参数 'a' 缺少类型提示", "info", "I0001"⟩ : CodeIssue).column = 0) :=
  ⟨((typeHint_flags_by_literal_name "f" (.cons "a" .none .nil) .nil .none 1 0).1).trans
      (by decide),
   (typeHint_flags_by_literal_name "f" (.cons "a" .none .nil) .nil .none 1 0).2
      ⟨1, 0, "参数 'a' 缺少类型提示", "info", "I0001"⟩ (by decide) (by decide)⟩

lemma stats_foldl : ∀ (l : List CodeIssue) (s : Stats),
    l.foldl
        (fun s i =>
          if i.severity = "error" then { s with errors := s.errors + 1 }
          else if i.severity = "warning" then { s with warnings := s.warnings + 1 }
          else if i.severity = "info" then { s with info := s.info + 1 }
          else s) s
      = ⟨s.total,
         s.errors + l.countP (fun i => i.severity = "error"),
         s.warnings + l.countP (fun i => i.severity = "warning"),
         s.info + l.countP (fun i => i.severity = "info")⟩ := by
  intro l
  induction l with
  | nil => intro s; simp
  | cons i l ih =>
    intro s
    rw [List.foldl_cons, ih]
    by_cases h₁ : i.severity = "error"
    · simp [h₁, List.countP_cons, Stats.mk.injEq]
      omega
    · by_cases h₂ : i.severity = "warning"
      · simp [h₁, h₂, List.countP_cons, Stats.mk.injEq]
        omega
      · by_cases h₃ : i.severity = "info"
        · simp [h₁, h₂, h₃, List.countP_cons, Stats.mk.injEq]
          omega
        · simp [h₁, h₂, h₃, List.countP_cons, Stats.mk.injEq]

lemma length_eq_sum_severity_counts (l : List CodeIssue)
    (h : ∀ i ∈ l, i.severity = "error" ∨ i.severity = "warning" ∨ i.severity = "info") :
    l.length = l.countP (fun i => i.severity = "error")
        + l.countP (fun i => i.severity = "warning")
        + l.countP (fun i => i.severity = "info") := by
  induction l with
  | nil => simp
  | cons i l ih =>
    have hi := h i (by simp)
    have ihl := ih (fun j hj => h j (by simp [hj]))
    rcases hi with h₁ | h₁ | h₁ <;>
      simp [h₁, List.countP_cons, ihl] <;> omega

/-- C8: for every Issue collection (whose severities are among the three
legal values `error`, `warning`, `info`, as the data model requires), the
statistics summary tallies each bucket as the number of Issues with that
severity, and `total` equals the sum of the three buckets. -/
theorem statistics_tally (issues : List CodeIssue)
    (h : ∀ i ∈ issues,
      i.severity = "error" ∨ i.severity = "warning" ∨ i.severity = "info") :
    (get_statistics ⟨issues⟩).errors = issues.countP (fun i => i.severity = "error") ∧
    (get_statistics ⟨issues⟩).warnings = issues.countP (fun i => i.severity = "warning") ∧
    (get_statistics ⟨issues⟩).info = issues.countP (fun i => i.severity = "info") ∧
    (get_statistics ⟨issues⟩).total
      = (get_statistics ⟨issues⟩).errors + (get_statistics ⟨issues⟩).warnings
          + (get_statistics ⟨issues⟩).info := by
  have hs := stats_foldl issues ⟨issues.length, 0, 0, 0⟩
  unfold get_statistics
  rw [hs]
  exact ⟨by simp, by simp, by simp, by simpa using length_eq_sum_severity_counts issues h⟩

/-- Witness for `statistics_tally`: a concrete mixed collection. -/
theorem statistics_tally_witness :
    (get_statistics ⟨[⟨1, 0, "a", "error", "E0001"⟩, ⟨2, 0, "b", "warning", "W0002"⟩,
        ⟨3, 0, "c", "info", "I0001"⟩, ⟨4, 0, "d", "info", "I0002"⟩]⟩).errors
      = ([⟨1, 0, "a", "error", "E0001"⟩, ⟨2, 0, "b", "warning", "W0002"⟩,
          ⟨3, 0, "c", "info", "I0001"⟩, ⟨4, 0, "d", "info", "I0002"⟩] :
            List CodeIssue).countP (fun i => i.severity = "error") ∧
    (get_statistics ⟨[⟨1, 0, "a", "error", "E0001"⟩, ⟨2, 0, "b", "warning", "W0002"⟩,
        ⟨3, 0, "c", "info", "I0001"⟩, ⟨4, 0, "d", "info", "I0002"⟩]⟩).warnings
      = ([⟨1, 0, "a", "error", "E0001"⟩, ⟨2, 0, "b", "warning", "W0002"⟩,
          ⟨3, 0, "c", "info", "I0001"⟩, ⟨4, 0, "d", "info", "I0002"⟩] :
            List CodeIssue).countP (fun i => i.severity = "warning") ∧
    (get_statistics ⟨[⟨1, 0, "a", "error", "E0001"⟩, ⟨2, 0, "b", "warning", "W0002"⟩,
        ⟨3, 0, "c", "info", "I0001"⟩, ⟨4, 0, "d", "info", "I0002"⟩]⟩).info
      = ([⟨1, 0, "a", "error", "E0001"⟩, ⟨2, 0, "b", "warning", "W0002"⟩,
          ⟨3, 0, "c", "info", "I0001"⟩, ⟨4, 0, "d", "info", "I0002"⟩] :
            List CodeIssue).countP (fun i => i.severity = "info") ∧
    (get_statistics ⟨[⟨1, 0, "a", "error", "E0001"⟩, ⟨2, 0, "b", "warning", "W0002"⟩,
        ⟨3, 0, "c", "info", "I0001"⟩, ⟨4, 0, "d", "info", "I0002"⟩]⟩).total
      = (get_statistics ⟨[⟨1, 0, "a", "error", "E0001"⟩, ⟨2, 0, "b", "warning", "W0002"⟩,
          ⟨3, 0, "c", "info", "I0001"⟩, ⟨4, 0, "d", "info", "I0002"⟩]⟩).errors
        + (get_statistics ⟨[⟨1, 0, "a", "error", "E0001"⟩, ⟨2, 0, "b", "warning", "W0002"⟩,
            ⟨3, 0, "c", "info", "I0001"⟩, ⟨4, 0, "d", "info", "I0002"⟩]⟩).warnings
        + (get_statistics ⟨[⟨1, 0, "a", "error", "E0001"⟩, ⟨2, 0, "b", "warning", "W0002"⟩,
            ⟨3, 0, "c", "info", "I0001"⟩, ⟨4, 0, "d", "info", "I0002"⟩]⟩).info :=
  statistics_tally
    [⟨1, 0, "a", "error", "E0001"⟩, ⟨2, 0, "b", "warning", "W0002"⟩,
     ⟨3, 0, "c", "info", "I0001"⟩, ⟨4, 0, "d", "info", "I0002"⟩]
    (by decide)

lemma sublist_insertAt (a : α) : ∀ (n : Nat) (l : List α), l.Sublist (insertAt a n l)
  | n, [] => by cases n <;> exact List.nil_sublist [a]
  | 0, x :: l => (List.Sublist.refl (x :: l)).cons a
  | n + 1, x :: l => (sublist_insertAt a n l).cons₂ x

/-- `addDocstring` with its `let`-bindings inlined, for case analysis. -/
lemma addDocstring_eq (lines : List String) (fixes : List FixRec) (issue : CodeIssue) :
    addDocstring lines fixes issue =
      if (lines.length : Int) ≤ issue.line - 1 then .ok (lines, fixes)
      else
        match pyGet lines (issue.line - 1) with
        | none => .error ()
        | some defLine =>
          match searchDefClass defLine.toList with
          | none => .ok (lines, fixes)
          | some (objType, objName) =>
            .ok (pyInsert lines (issue.line - 1 + 1)
                   (mkDocstring (leadingWsCount defLine) objType objName),
                 fixes ++ [⟨issue.line, "docstring", "为 " ++ objName ++ " 添加了文档字符串"⟩]) := rfl

lemma sublist_pyInsert (a : α) (i : Int) (l : List α) : l.Sublist (pyInsert l i a) := by
  unfold pyInsert
  split <;> apply sublist_insertAt

lemma addDocstring_sublist {lines : List String} {fixes : List FixRec} {issue : CodeIssue}
    {lines' : List String} {fixes' : List FixRec}
    (h : addDocstring lines fixes issue = .ok (lines', fixes')) : lines.Sublist lines' := by
  rw [addDocstring_eq] at h
  split at h
  · obtain ⟨rfl, rfl⟩ := Prod.mk.injEq .. ▸ Except.ok.inj h
    exact List.Sublist.refl _
  · split at h
    · exact absurd h (by simp)
    · split at h
      · obtain ⟨rfl, rfl⟩ := Prod.mk.injEq .. ▸ Except.ok.inj h
        exact List.Sublist.refl _
      · obtain ⟨rfl, rfl⟩ := Prod.mk.injEq .. ▸ Except.ok.inj h
        exact sublist_pyInsert _ _ _

lemma applyIssuesLoop_sublist : ∀ (issues : List CodeIssue) (lines : List String)
    (fixes : List FixRec) (lines' : List String) (fixes' : List FixRec),
    applyIssuesLoop lines fixes issues = .ok (lines', fixes') → lines.Sublist lines'
  | [], lines, fixes, lines', fixes' => by
    intro h
    unfold applyIssuesLoop at h
    obtain ⟨rfl, rfl⟩ := Prod.mk.injEq .. ▸ Except.ok.inj h
    exact List.Sublist.refl _
  | issue :: rest, lines, fixes, lines', fixes' => by
    intro h
    unfold applyIssuesLoop at h
    split at h
    · cases haux : addDocstring lines fixes issue with
      | error e => rw [haux] at h; exact absurd h (by simp)
      | ok p =>
        obtain ⟨l₁, f₁⟩ := p
        rw [haux] at h
        exact (addDocstring_sublist haux).trans
          (applyIssuesLoop_sublist rest l₁ f₁ lines' fixes' h)
    · exact applyIssuesLoop_sublist rest lines fixes lines' fixes' h

/-- C10: `fix_code` only inserts: whenever it returns, every line of the
original text appears unchanged, in its original relative order, in the
returned text (the original line list is a sublist of the result); no
existing line is deleted or modified. -/
theorem fix_code_insertions_only (lines : List String) (issues : List CodeIssue)
    (out : List String × List FixRec) (h : fix_code lines issues = .ok out) :
    lines.Sublist out.1 := by
  obtain ⟨lines', fixes'⟩ := out
  exact applyIssuesLoop_sublist (sortDescStable issues) lines [] lines' fixes' h

/-- Witness for `fix_code_insertions_only`: a concrete fix run. -/
theorem fix_code_insertions_only_witness :
    (["def f():", "    pass"] : List String).Sublist
      ["def f():", "    \"\"\"f 函数的文档字符串。\"\"\"", "    pass"] :=
  fix_code_insertions_only ["def f():", "    pass"] [⟨1, 0, "m", "warning", "W0002"⟩]
    (["def f():", "    \"\"\"f 函数的文档字符串。\"\"\"", "    pass"],
     [⟨1, "docstring", "为 f 添加了文档字符串"⟩]) (by decide)

/-! ### The planned Edits and their reference placement

`fix_code` applies its insertions sequentially at indices computed from
each Issue's own `line`, after sorting descending.  The spec's contract is
that every inserted docstring ends up in the block immediately after the
definition line the Issue's `line` designates in the original, unmodified
text.  `plannedFix` is the Edit (position, content, record) planned from
the original text; `interleave` places a batch of Edits relative to the
original text; `refPatch` is the specified result. -/

/-- The Edit planned from a docstring Issue against the original line
list: its insert position (the Issue's 1-based anchor line, i.e. the
0-based index just past it), the docstring content synthesized from the
anchored definition line, and the fix record.  `none` for a non-docstring
Issue, an anchor that is not a line of the original text, or an anchored
line with no recognizable definition pattern. -/
def plannedFix (lines : List String) (i : CodeIssue) : Option ((Nat × String) × FixRec) :=
  if i.code = "W0002" ∧ 0 < i.line ∧ i.line ≤ (lines.length : Int) then
    match pyGet lines (i.line - 1) with
    | none => none
    | some defLine =>
      match searchDefClass defLine.toList with
      | none => none
      | some (objType, objName) =>
        some ((i.line.toNat, mkDocstring (leadingWsCount defLine) objType objName),
              ⟨i.line, "docstring", "为 " ++ objName ++ " 添加了文档字符串"⟩)
  else none

/-- The positions/contents of the Edits planned from an Issue list. -/
def effPairs (lines : List String) (issues : List CodeIssue) : List (Nat × String) :=
  issues.filterMap (fun i => (plannedFix lines i).map Prod.fst)

/-- The fix records of the Edits planned from an Issue list. -/
def effRecs (lines : List String) (issues : List CodeIssue) : List FixRec :=
  issues.filterMap (fun i => (plannedFix lines i).map Prod.snd)

/-- The block of contents inserted at position `j`: each later-processed
Edit with the same anchor is inserted above the earlier ones, so the block
reads in reverse processing order. -/
def blockAt (ps : List (Nat × String)) (j : Nat) : List String :=
  ((ps.filter (fun q => q.1 = j)).reverse).map Prod.snd

/-- Lay out the lines after position `j`, following each line at position
`j + k` by the block of contents anchored there. -/
def weaveFrom (ps : List (Nat × String)) : Nat → List String → List String
  | _, [] => []
  | j, ln :: rest => ln :: (blockAt ps (j + 1) ++ weaveFrom ps (j + 1) rest)

/-- Place every Edit's content at the position implied by its anchor
relative to the original, unmodified text. -/
def interleave (lines : List String) (ps : List (Nat × String)) : List String :=
  blockAt ps 0 ++ weaveFrom ps 0 lines

/-- The specified result of fixing: every planned docstring sits in the
block immediately after the original line its Issue's `line` designates. -/
def refPatch (lines : List String) (issues : List CodeIssue) : List String :=
  interleave lines (effPairs lines issues)

lemma blockAt_cons (k : Nat) (c : String) (ps : List (Nat × String)) (j : Nat) :
    blockAt ((k, c) :: ps) j = if k = j then blockAt ps j ++ [c] else blockAt ps j := by
  by_cases h : k = j <;> simp [blockAt, h]

lemma blockAt_high (ps : List (Nat × String)) (j : Nat) (h : ∀ q ∈ ps, q.1 ≠ j) :
    blockAt ps j = [] := by
  simp only [blockAt, List.map_eq_nil_iff, List.reverse_eq_nil_iff, List.filter_eq_nil_iff]
  intro q hq
  simpa using h q hq

lemma weaveFrom_high (ps : List (Nat × String)) :
    ∀ (lines : List String) (j : Nat), (∀ q ∈ ps, q.1 ≤ j) → weaveFrom ps j lines = lines := by
  intro lines
  induction lines with
  | nil => intro j _; rfl
  | cons ln rest ih =>
    intro j h
    rw [weaveFrom, blockAt_high ps (j + 1) (fun q hq => by have := h q hq; omega),
      ih (j + 1) (fun q hq => by have := h q hq; omega)]
    simp

lemma insertAt_zero (a : α) (l : List α) : insertAt a 0 l = a :: l := by
  cases l <;> rfl

lemma length_insertAt (a : α) : ∀ (n : Nat) (l : List α),
    (insertAt a n l).length = l.length + 1
  | n, [] => by cases n <;> rfl
  | 0, x :: l => by rw [insertAt_zero]; rfl
  | n + 1, x :: l => by
    show (x :: insertAt a n l).length = (x :: l).length + 1
    simp [length_insertAt a n l]

lemma weave_insert (ps : List (Nat × String)) (c : String) :
    ∀ (p : Nat) (lines : List String) (j : Nat),
      p + 1 ≤ lines.length → (∀ q ∈ ps, q.1 ≤ j + p + 1) →
      weaveFrom ps j (insertAt c (p + 1) lines) = weaveFrom ((j + p + 1, c) :: ps) j lines
  | 0, [], j => by intro h _; exact absurd h (by simp)
  | 0, ln :: rest, j => by
    intro _ h
    show weaveFrom ps j (ln :: insertAt c 0 rest) = _
    rw [insertAt_zero, weaveFrom, weaveFrom, weaveFrom, blockAt_cons,
      blockAt_high ps (j + 2) (fun q hq => by have := h q hq; omega),
      weaveFrom_high ps rest (j + 2) (fun q hq => by have := h q hq; omega),
      weaveFrom_high ((j + 0 + 1, c) :: ps) rest (j + 1) ?hall]
    · simp
    case hall =>
      intro q hq
      rcases List.mem_cons.mp hq with h' | h'
      · subst h'; omega
      · have := h q h'; omega
  | p + 1, [], j => by intro h _; exact absurd h (by simp)
  | p + 1, ln :: rest, j => by
    intro hlen h
    show weaveFrom ps j (ln :: insertAt c (p + 1) rest) = _
    rw [weaveFrom, weaveFrom,
      weave_insert ps c p rest (j + 1) (by simpa using hlen)
        (fun q hq => by have := h q hq; omega),
      blockAt_cons]
    have : ¬(j + (p + 1) + 1 = j + 1) := by omega
    rw [if_neg this]
    have : j + 1 + p + 1 = j + (p + 1) + 1 := by omega
    rw [this]

lemma interleave_insert (lines : List String) (ps : List (Nat × String)) (p : Nat) (c : String)
    (hp : 0 < p) (hlen : p ≤ lines.length) (hps : ∀ q ∈ ps, q.1 ≤ p) :
    interleave (insertAt c p lines) ps = interleave lines ((p, c) :: ps) := by
  obtain ⟨p', rfl⟩ : ∃ p', p = p' + 1 := ⟨p - 1, by omega⟩
  rw [interleave, interleave,
    weave_insert ps c p' lines 0 (by omega) (fun q hq => by have := hps q hq; omega),
    blockAt_cons]
  have : ¬(p' + 1 = 0) := by omega
  rw [if_neg this]
  have : (0 : Nat) + p' + 1 = p' + 1 := by omega
  rw [this]

lemma foldl_insertAt_desc : ∀ (ps : List (Nat × String)) (lines : List String),
    ps.Pairwise (fun a b => b.1 ≤ a.1) → (∀ q ∈ ps, 0 < q.1 ∧ q.1 ≤ lines.length) →
    ps.foldl (fun ls q => insertAt q.2 q.1 ls) lines = interleave lines ps
  | [], lines => by
    intro _ _
    rw [List.foldl_nil, interleave, blockAt_high [] 0 (by simp),
      weaveFrom_high [] lines 0 (by simp)]
    simp
  | (p, c) :: ps, lines => by
    intro hpw hb
    have hrest : ∀ q ∈ ps, q.1 ≤ p := fun q hq => (List.pairwise_cons.mp hpw).1 q hq
    have hhead := hb (p, c) (by simp)
    rw [List.foldl_cons,
      foldl_insertAt_desc ps (insertAt c p lines) (List.pairwise_cons.mp hpw).2
        (fun q hq => ⟨(hb q (by simp [hq])).1,
          by have := (hb q (by simp [hq])).2; rw [length_insertAt]; omega⟩),
      interleave_insert lines ps p c hhead.1 hhead.2 hrest]

lemma get?_insertAt_lt (a : α) : ∀ (p k : Nat) (l : List α), k < p → p ≤ l.length →
    (insertAt a p l).get? k = l.get? k
  | 0, k, _ => by intro h _; exact absurd h (Nat.not_lt_zero k)
  | p + 1, _, [] => by intro _ h; simp at h
  | p + 1, 0, x :: l => by intro _ _; rfl
  | p + 1, k + 1, x :: l => by
    intro hk hp
    show (insertAt a p l).get? k = l.get? k
    exact get?_insertAt_lt a p k l (by omega) (by simpa using hp)

lemma plannedFix_some {lines : List String} {i : CodeIssue} {p : Nat} {c : String} {r : FixRec}
    (h : plannedFix lines i = some ((p, c), r)) :
    i.code = "W0002" ∧ 0 < i.line ∧ i.line = (p : Int) ∧ p ≤ lines.length := by
  unfold plannedFix at h
  split at h
  case isTrue hg =>
    split at h
    · exact absurd h (by simp)
    · split at h
      · exact absurd h (by simp)
      · simp only [Option.some.injEq, Prod.mk.injEq] at h
        obtain ⟨⟨hp₁, -⟩, -⟩ := h
        exact ⟨hg.1, hg.2.1, by omega, by omega⟩
  case isFalse => exact absurd h (by simp)

lemma plannedFix_insert_high (j : CodeIssue) (p : Nat) (c : String) (lines : List String)
    (hjp : j.line ≤ (p : Int)) (hp : p ≤ lines.length) :
    plannedFix (insertAt c p lines) j = plannedFix lines j := by
  unfold plannedFix
  rw [length_insertAt]
  by_cases hg : j.code = "W0002" ∧ 0 < j.line ∧ j.line ≤ (lines.length : Int)
  · rw [if_pos hg, if_pos ⟨hg.1, hg.2.1, by push_cast; omega⟩]
    have h0 : (0 : Int) ≤ j.line - 1 := by omega
    rw [pyGet, pyGet, if_pos h0, if_pos h0,
      get?_insertAt_lt c p (j.line - 1).toNat lines (by omega) hp]
  · rw [if_neg hg, if_neg (fun hc => hg ⟨hc.1, hc.2.1, by
      have : (j.line : Int) ≤ (p : Int) := hjp
      have : (p : Int) ≤ (lines.length : Int) := by exact_mod_cast hp
      omega⟩)]

lemma plannedFix_not_W0002 {lines : List String} {i : CodeIssue} (h : i.code ≠ "W0002") :
    plannedFix lines i = none := by
  unfold plannedFix
  rw [if_neg (fun hg => h hg.1)]

lemma applyLoop_eq : ∀ (issues : List CodeIssue) (lines : List String) (fixes : List FixRec),
    issues.Pairwise (fun a b => b.line ≤ a.line) →
    (∀ i ∈ issues, i.code = "W0002" → 0 < i.line) →
    applyIssuesLoop lines fixes issues
      = .ok ((effPairs lines issues).foldl (fun ls q => insertAt q.2 q.1 ls) lines,
             fixes ++ effRecs lines issues)
  | [], lines, fixes => by
    intro _ _
    simp [applyIssuesLoop, effPairs, effRecs]
  | i :: rest, lines, fixes => by
    intro hpw hpos
    have hrest_pw := (List.pairwise_cons.mp hpw).2
    have hrest_le : ∀ j ∈ rest, j.line ≤ i.line := (List.pairwise_cons.mp hpw).1
    have hrest_pos : ∀ j ∈ rest, j.code = "W0002" → 0 < j.line :=
      fun j hj => hpos j (by simp [hj])
    rw [applyIssuesLoop]
    by_cases hcode : i.code = "W0002"
    · rw [if_pos hcode]
      have hline : 0 < i.line := hpos i (by simp) hcode
      rw [addDocstring_eq]
      by_cases hrange : (lines.length : Int) ≤ i.line - 1
      · rw [if_pos hrange]
        have hpf : plannedFix lines i = none := by
          unfold plannedFix
          rw [if_neg (fun hg => by have := hg.2.2; omega)]
        show applyIssuesLoop lines fixes rest = _
        rw [applyLoop_eq rest lines fixes hrest_pw hrest_pos]
        simp [effPairs, effRecs, hpf]
      · rw [if_neg hrange]
        have h0 : (0 : Int) ≤ i.line - 1 := by omega
        obtain ⟨defLine, hdl⟩ : ∃ d, lines.get? (i.line - 1).toNat = some d := by
          cases hd : lines.get? (i.line - 1).toNat with
          | none =>
            have := List.get?_eq_none.mp hd
            omega
          | some d => exact ⟨d, rfl⟩
        have hpg : pyGet lines (i.line - 1) = some defLine := by
          rw [pyGet, if_pos h0]; exact hdl
        rw [hpg]
        dsimp only
        cases hsearch : searchDefClass defLine.toList with
        | none =>
          have hpf : plannedFix lines i = none := by
            unfold plannedFix
            rw [if_pos ⟨hcode, hline, by omega⟩, hpg]
            dsimp only
            rw [hsearch]
          show applyIssuesLoop lines fixes rest = _
          rw [applyLoop_eq rest lines fixes hrest_pw hrest_pos]
          simp [effPairs, effRecs, hpf]
        | some tn =>
          obtain ⟨objType, objName⟩ := tn
          have hins : pyInsert lines (i.line - 1 + 1)
                (mkDocstring (leadingWsCount defLine) objType objName)
              = insertAt (mkDocstring (leadingWsCount defLine) objType objName)
                  i.line.toNat lines := by
            rw [pyInsert, if_pos (by omega)]
            congr 1
            omega
          have hpf : plannedFix lines i
              = some ((i.line.toNat, mkDocstring (leadingWsCount defLine) objType objName),
                      ⟨i.line, "docstring", "为 " ++ objName ++ " 添加了文档字符串"⟩) := by
            unfold plannedFix
            rw [if_pos ⟨hcode, hline, by omega⟩, hpg]
            dsimp only
            rw [hsearch]
          show applyIssuesLoop
              (pyInsert lines (i.line - 1 + 1)
                (mkDocstring (leadingWsCount defLine) objType objName))
              (fixes ++ [⟨i.line, "docstring", "为 " ++ objName ++ " 添加了文档字符串"⟩])
              rest = _
          rw [hins, applyLoop_eq rest _ _ hrest_pw hrest_pos]
          have htrans : ∀ j ∈ rest,
              plannedFix (insertAt (mkDocstring (leadingWsCount defLine) objType objName)
                i.line.toNat lines) j = plannedFix lines j :=
            fun j hj =>
              plannedFix_insert_high j i.line.toNat _ lines
                (by have := hrest_le j hj; omega) (by omega)
          have hEP : effPairs (insertAt (mkDocstring (leadingWsCount defLine) objType objName)
              i.line.toNat lines) rest = effPairs lines rest :=
            List.filterMap_congr (fun x hx => by rw [htrans x hx])
          have hER : effRecs (insertAt (mkDocstring (leadingWsCount defLine) objType objName)
              i.line.toNat lines) rest = effRecs lines rest :=
            List.filterMap_congr (fun x hx => by rw [htrans x hx])
          rw [hEP, hER]
          simp [effPairs, effRecs, hpf]
    · rw [if_neg hcode]
      rw [applyLoop_eq rest lines fixes hrest_pw hrest_pos]
      simp [effPairs, effRecs, plannedFix_not_W0002 hcode]

lemma insertDescStable_cons (x y : CodeIssue) (l : List CodeIssue) :
    insertDescStable x (y :: l)
      = if x.line < y.line then y :: insertDescStable x l else x :: y :: l := rfl

lemma mem_insertDescStable (x a : CodeIssue) : ∀ (l : List CodeIssue),
    a ∈ insertDescStable x l ↔ a = x ∨ a ∈ l
  | [] => by simp [insertDescStable]
  | y :: l => by
    unfold insertDescStable
    split
    · rw [List.mem_cons, mem_insertDescStable x a l]
      simp only [List.mem_cons]
      tauto
    · simp only [List.mem_cons]

lemma mem_sortDescStable (a : CodeIssue) : ∀ (l : List CodeIssue),
    a ∈ sortDescStable l ↔ a ∈ l
  | [] => Iff.rfl
  | x :: l => by
    rw [sortDescStable, mem_insertDescStable, mem_sortDescStable a l]
    simp

lemma pairwise_insertDescStable (x : CodeIssue) : ∀ (l : List CodeIssue),
    l.Pairwise (fun a b => b.line ≤ a.line) →
    (insertDescStable x l).Pairwise (fun a b => b.line ≤ a.line)
  | [], _ => by simp [insertDescStable]
  | y :: l, h => by
    obtain ⟨hy, hl⟩ := List.pairwise_cons.mp h
    unfold insertDescStable
    split
    case isTrue hxy =>
      rw [List.pairwise_cons]
      refine ⟨fun z hz => ?_, pairwise_insertDescStable x l hl⟩
      rcases (mem_insertDescStable x z l).mp hz with rfl | hz'
      · omega
      · exact hy z hz'
    case isFalse hxy =>
      rw [List.pairwise_cons]
      refine ⟨fun z hz => ?_, h⟩
      rcases List.mem_cons.mp hz with rfl | hz'
      · omega
      · have := hy z hz'
        omega

lemma sortDescStable_pairwise : ∀ (l : List CodeIssue),
    (sortDescStable l).Pairwise (fun a b => b.line ≤ a.line)
  | [] => List.Pairwise.nil
  | x :: l => pairwise_insertDescStable x (sortDescStable l) (sortDescStable_pairwise l)

lemma filter_line_insertDescStable (v : Int) (x : CodeIssue) : ∀ (l : List CodeIssue),
    (insertDescStable x l).filter (fun i => i.line = v)
      = if x.line = v then x :: l.filter (fun i => i.line = v)
        else l.filter (fun i => i.line = v)
  | [] => by by_cases h : x.line = v <;> simp [insertDescStable, h]
  | y :: l => by
    unfold insertDescStable
    split
    case isTrue hxy =>
      rw [List.filter_cons, List.filter_cons, filter_line_insertDescStable v x l]
      by_cases hx : x.line = v
      · have hy : ¬(y.line = v) := by omega
        simp [hx, hy]
      · by_cases hy : y.line = v <;> simp [hx, hy]
    case isFalse hxy =>
      by_cases hx : x.line = v <;> simp [List.filter_cons, hx]

lemma filter_line_sortDescStable (v : Int) : ∀ (l : List CodeIssue),
    (sortDescStable l).filter (fun i => i.line = v) = l.filter (fun i => i.line = v)
  | [] => rfl
  | x :: l => by
    rw [sortDescStable, filter_line_insertDescStable, filter_line_sortDescStable v l,
      List.filter_cons]
    by_cases hx : x.line = v <;> simp [hx]

lemma insertDescStable_front (x : CodeIssue) (m : List CodeIssue)
    (h : ∀ z ∈ m, z.line ≤ x.line) : insertDescStable x m = x :: m := by
  cases m with
  | nil => rfl
  | cons y t =>
    unfold insertDescStable
    rw [if_neg (by have := h y (by simp); omega)]

lemma filter_insertDescStable_sorted (p : CodeIssue → Bool) (x : CodeIssue) :
    ∀ (l : List CodeIssue), l.Pairwise (fun a b => b.line ≤ a.line) →
    (insertDescStable x l).filter p
      = if p x then insertDescStable x (l.filter p) else l.filter p
  | [], _ => by by_cases h : p x <;> simp [insertDescStable, h]
  | y :: l, hpw => by
    obtain ⟨hy, hl⟩ := List.pairwise_cons.mp hpw
    rw [insertDescStable_cons]
    by_cases hxy : x.line < y.line
    · rw [if_pos hxy]
      by_cases hpx : p x
      · by_cases hpy : p y
        · rw [List.filter_cons_of_pos hpy, filter_insertDescStable_sorted p x l hl,
            if_pos hpx, if_pos hpx, List.filter_cons_of_pos hpy, insertDescStable_cons,
            if_pos hxy]
        · rw [List.filter_cons_of_neg hpy, filter_insertDescStable_sorted p x l hl,
            if_pos hpx, if_pos hpx, List.filter_cons_of_neg hpy]
      · by_cases hpy : p y
        · rw [List.filter_cons_of_pos hpy, filter_insertDescStable_sorted p x l hl,
            if_neg hpx, if_neg hpx, List.filter_cons_of_pos hpy]
        · rw [List.filter_cons_of_neg hpy, filter_insertDescStable_sorted p x l hl,
            if_neg hpx, if_neg hpx, List.filter_cons_of_neg hpy]
    · rw [if_neg hxy]
      by_cases hpx : p x
      · rw [List.filter_cons_of_pos hpx, if_pos hpx,
          insertDescStable_front x (List.filter p (y :: l)) ?hfr]
        case hfr =>
          intro z hz
          rcases List.mem_cons.mp (List.mem_of_mem_filter hz) with rfl | hz'
          · omega
          · have := hy z hz'
            omega
      · rw [List.filter_cons_of_neg hpx, if_neg hpx]

lemma filter_sortDescStable (p : CodeIssue → Bool) : ∀ (l : List CodeIssue),
    (sortDescStable l).filter p = sortDescStable (l.filter p)
  | [] => rfl
  | x :: l => by
    rw [sortDescStable,
      filter_insertDescStable_sorted p x (sortDescStable l) (sortDescStable_pairwise l),
      filter_sortDescStable p l, List.filter_cons]
    by_cases hx : p x <;> simp [hx, sortDescStable]

lemma weaveFrom_congr {ps₁ ps₂ : List (Nat × String)}
    (h : ∀ j, ps₁.filter (fun q => q.1 = j) = ps₂.filter (fun q => q.1 = j)) :
    ∀ (lines : List String) (j : Nat), weaveFrom ps₁ j lines = weaveFrom ps₂ j lines := by
  intro lines
  induction lines with
  | nil => intro j; rfl
  | cons ln rest ih =>
    intro j
    rw [weaveFrom, weaveFrom, blockAt, blockAt, h (j + 1), ih]

lemma interleave_congr {ps₁ ps₂ : List (Nat × String)} (lines : List String)
    (h : ∀ j, ps₁.filter (fun q => q.1 = j) = ps₂.filter (fun q => q.1 = j)) :
    interleave lines ps₁ = interleave lines ps₂ := by
  rw [interleave, interleave, blockAt, blockAt, h 0, weaveFrom_congr h]

lemma effPairs_cons_none {lines : List String} {i : CodeIssue} (l : List CodeIssue)
    (hpf : plannedFix lines i = none) : effPairs lines (i :: l) = effPairs lines l := by
  simp [effPairs, List.filterMap_cons, hpf]

lemma effPairs_cons_some {lines : List String} {i : CodeIssue} {p : Nat} {c : String}
    {r : FixRec} (l : List CodeIssue) (hpf : plannedFix lines i = some ((p, c), r)) :
    effPairs lines (i :: l) = (p, c) :: effPairs lines l := by
  simp [effPairs, List.filterMap_cons, hpf]

lemma effRecs_cons_none {lines : List String} {i : CodeIssue} (l : List CodeIssue)
    (hpf : plannedFix lines i = none) : effRecs lines (i :: l) = effRecs lines l := by
  simp [effRecs, List.filterMap_cons, hpf]

lemma effRecs_cons_some {lines : List String} {i : CodeIssue} {p : Nat} {c : String}
    {r : FixRec} (l : List CodeIssue) (hpf : plannedFix lines i = some ((p, c), r)) :
    effRecs lines (i :: l) = r :: effRecs lines l := by
  simp [effRecs, List.filterMap_cons, hpf]

lemma filter_effPairs (lines : List String) (j : Nat) : ∀ (l : List CodeIssue),
    (effPairs lines l).filter (fun q => q.1 = j)
      = effPairs lines (l.filter (fun i => i.line = (j : Int)))
  | [] => rfl
  | i :: l => by
    cases hpf : plannedFix lines i with
    | none =>
      rw [effPairs_cons_none l hpf]
      by_cases hil : i.line = (j : Int)
      · rw [List.filter_cons_of_pos (by simpa using hil), effPairs_cons_none _ hpf]
        exact filter_effPairs lines j l
      · rw [List.filter_cons_of_neg (by simpa using hil)]
        exact filter_effPairs lines j l
    | some pr =>
      obtain ⟨⟨p, c⟩, r⟩ := pr
      obtain ⟨-, hpos, hline, -⟩ := plannedFix_some hpf
      rw [effPairs_cons_some l hpf]
      by_cases hpj : p = j
      · have hil : i.line = (j : Int) := by omega
        rw [List.filter_cons_of_pos (by simpa using hpj),
          List.filter_cons_of_pos (by simpa using hil), effPairs_cons_some _ hpf,
          filter_effPairs lines j l]
      · have hil : ¬(i.line = (j : Int)) := by omega
        rw [List.filter_cons_of_neg (by simpa using hpj),
          List.filter_cons_of_neg (by simpa using hil)]
        exact filter_effPairs lines j l

lemma effPairs_pairwise (lines : List String) : ∀ (l : List CodeIssue),
    l.Pairwise (fun a b => b.line ≤ a.line) →
    (effPairs lines l).Pairwise (fun a b => b.1 ≤ a.1)
  | [], _ => List.Pairwise.nil
  | i :: l, h => by
    obtain ⟨hi, hl⟩ := List.pairwise_cons.mp h
    rw [effPairs, List.filterMap_cons]
    cases hpf : plannedFix lines i with
    | none => exact effPairs_pairwise lines l hl
    | some pr =>
      obtain ⟨⟨p, c⟩, r⟩ := pr
      obtain ⟨-, hpos, hline, -⟩ := plannedFix_some hpf
      show List.Pairwise (fun a b => b.1 ≤ a.1) ((p, c) :: effPairs lines l)
      rw [List.pairwise_cons]
      refine ⟨fun q hq => ?_, effPairs_pairwise lines l hl⟩
      obtain ⟨x, hx, hfx⟩ := List.mem_filterMap.mp hq
      cases hpfx : plannedFix lines x with
      | none => rw [hpfx] at hfx; exact absurd hfx (by simp)
      | some prx =>
        obtain ⟨⟨px, cx⟩, rx⟩ := prx
        rw [hpfx] at hfx
        obtain ⟨-, hposx, hlinex, -⟩ := plannedFix_some hpfx
        have hxq : (px, cx) = q := by simpa using hfx
        have hle := hi x hx
        subst hxq
        simp only
        omega

lemma effPairs_bounds (lines : List String) (l : List CodeIssue) :
    ∀ q ∈ effPairs lines l, 0 < q.1 ∧ q.1 ≤ lines.length := by
  intro q hq
  obtain ⟨i, hi, hfi⟩ := List.mem_filterMap.mp hq
  cases hpf : plannedFix lines i with
  | none => rw [hpf] at hfi; exact absurd hfi (by simp)
  | some pr =>
    obtain ⟨⟨p, c⟩, r⟩ := pr
    rw [hpf] at hfi
    obtain ⟨-, hpos, hline, hlen⟩ := plannedFix_some hpf
    have : (p, c) = q := by simpa using hfi
    subst this
    exact ⟨by omega, hlen⟩

lemma fix_code_normal (lines : List String) (issues : List CodeIssue)
    (h : ∀ i ∈ issues, i.code = "W0002" → 0 < i.line) :
    fix_code lines issues
      = .ok (interleave lines (effPairs lines (sortDescStable issues)),
             effRecs lines (sortDescStable issues)) := by
  rw [fix_code,
    applyLoop_eq (sortDescStable issues) lines [] (sortDescStable_pairwise issues)
      (fun i hi => h i ((mem_sortDescStable i issues).mp hi)),
    foldl_insertAt_desc _ lines
      (effPairs_pairwise lines (sortDescStable issues) (sortDescStable_pairwise issues))
      (effPairs_bounds lines (sortDescStable issues))]
  simp

lemma interleave_sorted_eq (lines : List String) (issues : List CodeIssue) :
    interleave lines (effPairs lines (sortDescStable issues)) = refPatch lines issues := by
  rw [refPatch]
  apply interleave_congr
  intro j
  rw [filter_effPairs lines j (sortDescStable issues), filter_effPairs lines j issues,
    filter_line_sortDescStable]

/-- All lists obtained by inserting `a` at each position of a list. -/
def insertEverywhere (a : α) : List α → List (List α)
  | [] => [[a]]
  | x :: l => (a :: x :: l) :: (insertEverywhere a l).map (x :: ·)

/-- All orderings (permutations) of a list. -/
def allPerms : List α → List (List α)
  | [] => [[]]
  | x :: l => (allPerms l).flatMap (insertEverywhere x)

lemma append_cons_mem_insertEverywhere (a : α) : ∀ (A B : List α),
    (A ++ a :: B) ∈ insertEverywhere a (A ++ B)
  | [], B => by cases B <;> simp [insertEverywhere]
  | y :: A, B => by
    rw [List.cons_append, List.cons_append, insertEverywhere]
    exact List.mem_cons_of_mem _
      (List.mem_map_of_mem (y :: ·) (append_cons_mem_insertEverywhere a A B))

/-- `allPerms` is complete: it contains every reordering of the list. -/
lemma perm_mem_allPerms : ∀ {l₂ l₁ : List α}, l₁.Perm l₂ → l₁ ∈ allPerms l₂
  | [], l₁, h => by simp [allPerms, h.eq_nil]
  | x :: l₂, l₁, h => by
    have hx : x ∈ l₁ := h.mem_iff.mpr (by simp)
    obtain ⟨A, B, rfl⟩ := List.append_of_mem hx
    have hAB : (A ++ B).Perm l₂ := (List.perm_middle.symm.trans h).cons_inv
    rw [allPerms]
    exact List.mem_flatMap.mpr
      ⟨A ++ B, perm_mem_allPerms hAB, append_cons_mem_insertEverywhere x A B⟩

/-- A 12-line text with definitions at lines 3, 7 and 10. -/
def anchorText : List String :=
  ["x0 = 0", "x1 = 1", "def a():", "    pass", "x2 = 2", "x3 = 3",
   "def b():", "    pass", "x4 = 4", "def c():", "    pass", "x5 = 5"]

/-- A batch of four docstring Issues with anchor lines 10, 7, 7, 3. -/
def anchorIssues : List CodeIssue :=
  [⟨10, 0, "i10", "warning", "W0002"⟩, ⟨7, 0, "i7a", "warning", "W0002"⟩,
   ⟨7, 0, "i7b", "warning", "W0002"⟩, ⟨3, 0, "i3", "warning", "W0002"⟩]

/-- C1: `fix_code` (which applies the edits in descending anchor order)
realizes the reference placement: every inserted docstring line lands in
the block immediately after the definition line its Issue's `line`
designates in the original, unmodified text (`refPatch`, which is computed
from the original text only).  Moreover, for the batch with anchors
{10, 7, 7, 3} applied to `anchorText`, running the application loop over
ANY reordering of the batch yields this placement exactly when the
ordering is the descending one `[10, 7, 7, 3]`. -/
theorem fix_code_desc_placement :
    (∀ (lines : List String) (issues : List CodeIssue),
      (∀ i ∈ issues, i.code = "W0002" → 0 < i.line) →
      (fix_code lines issues).map Prod.fst = .ok (refPatch lines issues)) ∧
    (∀ p : List CodeIssue, p.Perm anchorIssues →
      (((applyIssuesLoop anchorText [] p).map Prod.fst
          = .ok (refPatch anchorText anchorIssues))
        ↔ p.map CodeIssue.line = [10, 7, 7, 3])) := by
  constructor
  · intro lines issues h
    rw [fix_code_normal lines issues h, interleave_sorted_eq]
    rfl
  · intro p hp
    exact (by decide :
      ∀ p ∈ allPerms anchorIssues,
        (((applyIssuesLoop anchorText [] p).map Prod.fst
            = .ok (refPatch anchorText anchorIssues))
          ↔ p.map CodeIssue.line = [10, 7, 7, 3])) p (perm_mem_allPerms hp)

/-- Witness for `fix_code_desc_placement`: a concrete fix run equals the
reference placement, and the descending batch itself yields it. -/
theorem fix_code_desc_placement_witness :
    ((fix_code ["def f():", "    pass"] [⟨1, 0, "m", "warning", "W0002"⟩]).map Prod.fst
      = .ok (refPatch ["def f():", "    pass"] [⟨1, 0, "m", "warning", "W0002"⟩])) ∧
    (((applyIssuesLoop anchorText [] anchorIssues).map Prod.fst
        = .ok (refPatch anchorText anchorIssues))
      ↔ anchorIssues.map CodeIssue.line = [10, 7, 7, 3]) :=
  ⟨fix_code_desc_placement.1 ["def f():", "    pass"] [⟨1, 0, "m", "warning", "W0002"⟩]
      (by decide),
   fix_code_desc_placement.2 anchorIssues (List.Perm.refl anchorIssues)⟩

/-- C6 counterexample: a docstring Issue with anchor line 0 — out of range
of the 1-based text — is NOT silently skipped: Python's negative indexing
resolves `lines[-1]` to the last line, and the fixer inserts a docstring
at the top of the file and records a fix, so the returned text differs
from the input. -/
theorem fix_code_out_of_range_skip_refuted :
    fix_code ["x = 1", "def f():"] [⟨0, 0, "m", "warning", "W0002"⟩]
      = .ok (["    \"\"\"f 函数的文档字符串。\"\"\"", "x = 1", "def f():"],
             [⟨0, "docstring", "为 f 添加了文档字符串"⟩]) ∧
    (["    \"\"\"f 函数的文档字符串。\"\"\"", "x = 1", "def f():"] : List String)
      ≠ ["x = 1", "def f():"] := by
  decide

/-- A docstring Issue the fixer skips: its anchor line exceeds the line
count (`line_idx >= len(lines)`), or the anchored line matches no
definition pattern. -/
def skippedDocIssue (lines : List String) (i : CodeIssue) : Bool :=
  i.code = "W0002" &&
    ((lines.length : Int) ≤ i.line - 1 ||
      (match pyGet lines (i.line - 1) with
       | some defLine => (searchDefClass defLine.toList).isNone
       | none => false))

lemma skippedDocIssue_plannedFix {lines : List String} {i : CodeIssue}
    (_hline : i.code = "W0002" → 0 < i.line) (h : skippedDocIssue lines i = true) :
    plannedFix lines i = none := by
  rw [skippedDocIssue] at h
  simp only [Bool.and_eq_true, Bool.or_eq_true, decide_eq_true_eq] at h
  obtain ⟨hcode, hrest⟩ := h
  rcases hrest with hrange | hmatch
  · unfold plannedFix
    rw [if_neg (fun hg => by have := hg.2.2; omega)]
  · unfold plannedFix
    by_cases hg : i.code = "W0002" ∧ 0 < i.line ∧ i.line ≤ (lines.length : Int)
    · rw [if_pos hg]
      cases hpg : pyGet lines (i.line - 1) with
      | none => rfl
      | some defLine =>
        rw [hpg] at hmatch
        simp only [Option.isNone_iff_eq_none] at hmatch
        dsimp only
        rw [hmatch]
    · rw [if_neg hg]

lemma effPairs_filter_of_none (lines : List String) (p : CodeIssue → Bool) :
    ∀ (l : List CodeIssue), (∀ i ∈ l, p i = false → plannedFix lines i = none) →
    effPairs lines (l.filter p) = effPairs lines l
  | [], _ => rfl
  | i :: l, h => by
    have hrest := fun j hj => h j (List.mem_cons_of_mem i hj)
    by_cases hp : p i
    · rw [List.filter_cons_of_pos hp]
      cases hpf : plannedFix lines i with
      | none =>
        rw [effPairs_cons_none _ hpf, effPairs_cons_none _ hpf]
        exact effPairs_filter_of_none lines p l hrest
      | some pr =>
        obtain ⟨⟨q, c⟩, r⟩ := pr
        rw [effPairs_cons_some _ hpf, effPairs_cons_some _ hpf,
          effPairs_filter_of_none lines p l hrest]
    · rw [List.filter_cons_of_neg hp,
        effPairs_cons_none _ (h i (by simp) (by simpa using hp))]
      exact effPairs_filter_of_none lines p l hrest

lemma effRecs_filter_of_none (lines : List String) (p : CodeIssue → Bool) :
    ∀ (l : List CodeIssue), (∀ i ∈ l, p i = false → plannedFix lines i = none) →
    effRecs lines (l.filter p) = effRecs lines l
  | [], _ => rfl
  | i :: l, h => by
    have hrest := fun j hj => h j (List.mem_cons_of_mem i hj)
    by_cases hp : p i
    · rw [List.filter_cons_of_pos hp]
      cases hpf : plannedFix lines i with
      | none =>
        rw [effRecs_cons_none _ hpf, effRecs_cons_none _ hpf]
        exact effRecs_filter_of_none lines p l hrest
      | some pr =>
        obtain ⟨⟨q, c⟩, r⟩ := pr
        rw [effRecs_cons_some _ hpf, effRecs_cons_some _ hpf,
          effRecs_filter_of_none lines p l hrest]
    · rw [List.filter_cons_of_neg hp,
        effRecs_cons_none _ (h i (by simp) (by simpa using hp))]
      exact effRecs_filter_of_none lines p l hrest

/-- C6 amended: for every text and every Issue list whose docstring Issues
have positive anchor lines, `fix_code` never fails; a docstring Issue
whose anchor line exceeds the line count, or whose anchored line matches
no definition pattern, is silently skipped: removing all such Issues from
the batch changes neither the returned text nor the fix records.
(Anchors `≤ 0` are NOT skipped: Python's negative indexing resolves them
from the end of the file, and anchors below `1 - len(lines)` raise.) -/
theorem fix_code_skip_semantics (lines : List String) (issues : List CodeIssue)
    (h : ∀ i ∈ issues, i.code = "W0002" → 0 < i.line) :
    (∃ out, fix_code lines issues = .ok out) ∧
    fix_code lines issues
      = fix_code lines (issues.filter (fun i => !skippedDocIssue lines i)) := by
  refine ⟨⟨_, fix_code_normal lines issues h⟩, ?_⟩
  rw [fix_code_normal lines issues h,
    fix_code_normal lines (issues.filter (fun i => !skippedDocIssue lines i))
      (fun i hi hc => h i (List.mem_of_mem_filter hi) hc),
    ← filter_sortDescStable]
  have hdrop : ∀ i ∈ sortDescStable issues,
      (!skippedDocIssue lines i) = false → plannedFix lines i = none := by
    intro i hi hne
    exact skippedDocIssue_plannedFix (h i ((mem_sortDescStable i issues).mp hi))
      (by simpa using hne)
  rw [effPairs_filter_of_none lines _ (sortDescStable issues) hdrop,
    effRecs_filter_of_none lines _ (sortDescStable issues) hdrop]

/-- Witness for `fix_code_skip_semantics`: a batch with one out-of-range
anchor and one anchor on a non-definition line. -/
theorem fix_code_skip_semantics_witness :
    (∃ out, fix_code ["y = 2", "def f():"]
        [⟨1, 0, "m1", "warning", "W0002"⟩, ⟨5, 0, "m5", "warning", "W0002"⟩] = .ok out) ∧
    fix_code ["y = 2", "def f():"]
        [⟨1, 0, "m1", "warning", "W0002"⟩, ⟨5, 0, "m5", "warning", "W0002"⟩]
      = fix_code ["y = 2", "def f():"]
          (([⟨1, 0, "m1", "warning", "W0002"⟩, ⟨5, 0, "m5", "warning", "W0002"⟩] :
              List CodeIssue).filter
            (fun i => !skippedDocIssue ["y = 2", "def f():"] i)) :=
  fix_code_skip_semantics ["y = 2", "def f():"]
    [⟨1, 0, "m1", "warning", "W0002"⟩, ⟨5, 0, "m5", "warning", "W0002"⟩] (by decide)

/-- C7: when the Issue list holds no fixable (missing-docstring) Issue —
as for fully docstring-complete, fully annotated source — `fix_code` plans
no Edit and is the identity on the text: it returns the input lines
unchanged and records no fix. -/
theorem fix_code_identity_without_fixable (lines : List String) (issues : List CodeIssue)
    (h : ∀ i ∈ issues, i.code ≠ "W0002") :
    fix_code lines issues = .ok (lines, []) ∧ effPairs lines issues = [] := by
  have h' : ∀ i ∈ issues, i.code = "W0002" → 0 < i.line :=
    fun i hi hc => absurd hc (h i hi)
  have hnone : ∀ i ∈ sortDescStable issues, plannedFix lines i = none :=
    fun i hi => plannedFix_not_W0002 (h i ((mem_sortDescStable i issues).mp hi))
  have hEP : effPairs lines (sortDescStable issues) = [] := by
    rw [effPairs]
    exact List.filterMap_eq_nil_iff.mpr (fun i hi => by rw [hnone i hi]; rfl)
  have hER : effRecs lines (sortDescStable issues) = [] := by
    rw [effRecs]
    exact List.filterMap_eq_nil_iff.mpr (fun i hi => by rw [hnone i hi]; rfl)
  refine ⟨?_, ?_⟩
  · rw [fix_code_normal lines issues h', hEP, hER, interleave,
      weaveFrom_high [] lines 0 (by simp)]
    rfl
  · rw [effPairs]
    exact List.filterMap_eq_nil_iff.mpr
      (fun i hi => by rw [plannedFix_not_W0002 (h i hi)]; rfl)

/-- Witness for `fix_code_identity_without_fixable`: a batch of only
annotation Issues leaves a concrete text untouched. -/
theorem fix_code_identity_without_fixable_witness :
    (fix_code ["x = 1"] [⟨1, 0, "m", "info", "I0001"⟩, ⟨1, 0, "n", "info", "I0002"⟩]
      = .ok (["x = 1"], [])) ∧
    effPairs ["x = 1"] [⟨1, 0, "m", "info", "I0001"⟩, ⟨1, 0, "n", "info", "I0002"⟩] = [] :=
  fix_code_identity_without_fixable ["x = 1"]
    [⟨1, 0, "m", "info", "I0001"⟩, ⟨1, 0, "n", "info", "I0002"⟩] (by decide)
